import Mathlib
set_option maxRecDepth 8000

/-!
A verification development for the request parameter binding engine of the
fastglue HTTP micro-framework.  The flat tag scanner (`ScanArgs` and its
coercion helper `setVal` from `utils.go`) is embedded shallowly: the argument
multimap becomes an ordered association list, struct fields become a list of
field records, and the strconv parsers are modelled as total Lean functions.
The nested-key tree builder (exercised by `TestUnmarshalArgs`) is modelled
from the design document, since its implementation is not part of the
analysed sources.
-/

namespace Fastglue

/-- Kinds of Go values relevant to binding (mirrors the `reflect.Kind` cases
that `ScanArgs`/`setVal` distinguish).  `uint8` is kept separate from `uint`
because the byte-slice branch of `ScanArgs` tests for it, while `setVal`
treats it like any unsigned integer. `other` covers every kind the engine
cannot bind (structs, maps, pointers, ...). -/
inductive Kind where
  | int
  | uint
  | uint8
  | float
  | str
  | bool
  | slice : Kind → Kind
  | other
deriving DecidableEq

/-- Runtime values stored in struct fields.  `vnone` is the zero value of
unbindable kinds and of nil slices. Floats are carried as exact rationals
(see `parseGoFloat`). -/
inductive Val where
  | vint : Int → Val
  | vuint : Nat → Val
  | vfloat : Rat → Val
  | vstr : String → Val
  | vbool : Bool → Val
  | vbytes : String → Val
  | vslice : List Val → Val
  | vnone
/-- Accumulate base-10 digits onto `acc`; fails on a non-digit character.
Mirrors the digit loop of `strconv.ParseUint` with base 10 (underscores are
rejected there since the base is given explicitly). -/
def digitsValAux (acc : Nat) : List Char → Option Nat
  | [] => some acc
  | c :: cs => if c.isDigit then digitsValAux (acc * 10 + (c.toNat - '0'.toNat)) cs else none

/-- Parse a non-empty all-digit string to a natural number. -/
def digitsToNat : List Char → Option Nat
  | [] => none
  | cs => digitsValAux 0 cs

/-- Numeric value of a digit list (unchecked variant used for floats, whose
digit runs are produced by `spanDigits` and hence known to be digits). -/
def digitsVal (cs : List Char) : Nat :=
  cs.foldl (fun a c => a * 10 + (c.toNat - '0'.toNat)) 0

/-- Model of `strconv.ParseInt(s, 10, 0)` on a 64-bit platform: optional
sign, base-10 digits, int64 range check. -/
def parseGoInt (s : String) : Option Int :=
  let p : Bool × List Char :=
    match s.data with
    | '+' :: cs => (false, cs)
    | '-' :: cs => (true, cs)
    | cs => (false, cs)
  match digitsToNat p.2 with
  | none => none
  | some n =>
    if p.1 then
      if n ≤ 2 ^ 63 then some (-(n : Int)) else none
    else
      if n < 2 ^ 63 then some (n : Int) else none

/-- Model of `strconv.ParseUint(s, 10, 0)`: no sign allowed, base-10 digits,
uint64 range check. -/
def parseGoUint (s : String) : Option Nat :=
  match digitsToNat s.data with
  | none => none
  | some n => if n < 2 ^ 64 then some n else none

/-- Model of `strconv.ParseBool`: the exact literal set it accepts. -/
def parseGoBool (s : String) : Option Bool :=
  if s = "1" ∨ s = "t" ∨ s = "T" ∨ s = "true" ∨ s = "TRUE" ∨ s = "True" then some true
  else if s = "0" ∨ s = "f" ∨ s = "F" ∨ s = "false" ∨ s = "FALSE" ∨ s = "False" then some false
  else none

/-- Result of `strconv.ParseFloat`: a finite value (exact decimal rational),
an infinity (`true` = negative), or NaN. -/
inductive GoFloat where
  | finite : Rat → GoFloat
  | inf : Bool → GoFloat
  | nan
deriving DecidableEq

/-- ASCII lowercasing used by strconv's case-insensitive special-value match. -/
def lowerAscii (cs : List Char) : List Char := cs.map Char.toLower

/-- Model of strconv's `special`: `inf`/`infinity` case-insensitively with an
optional sign, and `nan` case-insensitively without a sign. -/
def parseSpecial (s : String) : Option GoFloat :=
  match s.data with
  | '+' :: cs =>
    if lowerAscii cs = "inf".data ∨ lowerAscii cs = "infinity".data then
      some (.inf false)
    else none
  | '-' :: cs =>
    if lowerAscii cs = "inf".data ∨ lowerAscii cs = "infinity".data then
      some (.inf true)
    else none
  | cs =>
    if lowerAscii cs = "inf".data ∨ lowerAscii cs = "infinity".data then
      some (.inf false)
    else if lowerAscii cs = "nan".data then some GoFloat.nan
    else none

/-- Split off a maximal run of decimal digits. -/
def spanDigits : List Char → List Char × List Char
  | [] => ([], [])
  | c :: cs =>
    if c.isDigit then
      let p := spanDigits cs
      (c :: p.1, p.2)
    else ([], c :: cs)

/-- Parse an exponent suffix (`[+-]digits`) to its signed value. -/
def parseExpDigits (cs : List Char) : Option Int :=
  let p : Bool × List Char :=
    match cs with
    | '+' :: r => (false, r)
    | '-' :: r => (true, r)
    | r => (false, r)
  match p.2 with
  | [] => none
  | ds =>
    if ds.all Char.isDigit then
      some (if p.1 then -(digitsVal ds : Int) else (digitsVal ds : Int))
    else none

/-- Parse the unsigned part of a decimal float literal (strconv's `readFloat`
restricted to base 10): digits, an optional fraction, an optional exponent,
at least one mantissa digit, no trailing garbage.  Returns the mantissa
digits' value, the number of fraction digits, and the exponent. -/
def parseMantExp (cs : List Char) : Option (Nat × Nat × Int) :=
  let p1 := spanDigits cs
  let p2 : List Char × List Char :=
    match p1.2 with
    | '.' :: r => spanDigits r
    | r => ([], r)
  if p1.1 = [] ∧ p2.1 = [] then none
  else
    let m := digitsVal (p1.1 ++ p2.1)
    match p2.2 with
    | [] => some (m, p2.1.length, 0)
    | 'e' :: r => (parseExpDigits r).map (fun e => (m, p2.1.length, e))
    | 'E' :: r => (parseExpDigits r).map (fun e => (m, p2.1.length, e))
    | _ => none

/-- The exact rational `m * 10 ^ (expo - fracLen)` denoted by a decimal
literal, built with `mkRat` so that it evaluates by kernel reduction. -/
def decValue (m fracLen : Nat) (expo : Int) : Rat :=
  let e : Int := expo - fracLen
  if 0 ≤ e then ((m * 10 ^ e.toNat : Nat) : Rat) else mkRat m (10 ^ (-e).toNat)

/-- Float64 overflow threshold `2^1024 - 2^970`: finite decimal values whose
magnitude reaches it round to an infinity (strconv additionally reports
`ErrRange`, which the caller also treats as failure). -/
def overflowBound : Rat := ((2 ^ 970 * (2 ^ 54 - 1) : Nat) : Rat)

/-- Model of `strconv.ParseFloat(s, 0)` (bit size 0 behaves as 64): the
special values first, then the decimal grammar with optional sign.  Finite
results keep the exact decimal rational; float64 rounding of in-range values
is not modelled (no analysed property depends on it), but range overflow is,
because it turns a textually valid literal into a non-finite result. -/
def parseGoFloat (s : String) : Option GoFloat :=
  match parseSpecial s with
  | some g => some g
  | none =>
    let p : Bool × List Char :=
      match s.data with
      | '+' :: cs => (false, cs)
      | '-' :: cs => (true, cs)
      | cs => (false, cs)
    match parseMantExp p.2 with
    | none => none
    | some me =>
      let q := decValue me.1 me.2.1 me.2.2
      if overflowBound ≤ q then some (.inf p.1)
      else some (.finite (if p.1 then -q else q))

/-- Model of `setVal` (utils.go:100-132): coerce `val` into a value of kind
`k`.  `.ok (some v)` means scanned with new value `v`; `.ok none` means the
kind is unbindable, the field is untouched and not counted as scanned;
`.error reason` is a coercion failure with the expected-kind message. -/
def setVal (k : Kind) (val : String) : Except String (Option Val) :=
  match k with
  | .int =>
    match parseGoInt val with
    | none => .error "expected int"
    | some v => .ok (some (.vint v))
  | .uint =>
    match parseGoUint val with
    | none => .error "expected unsigned int"
    | some v => .ok (some (.vuint v))
  | .uint8 =>
    match parseGoUint val with
    | none => .error "expected unsigned int"
    | some v => .ok (some (.vuint v))
  | .float =>
    match parseGoFloat val with
    | some (.finite q) => .ok (some (.vfloat q))
    | _ => .error "expected decimal"
  | .str => .ok (some (.vstr val))
  | .bool =>
    match parseGoBool val with
    | none => .error "expected boolean"
    | some b => .ok (some (.vbool b))
  | _ => .ok none

/-- Ordered multimap of form/query arguments, modelling `fasthttp.Args`: a
list of key/value pairs in submission order. -/
abbrev Args := List (String × String)

/-- `args.Has(k)`: does any pair carry key `k`? -/
def Args.has (a : Args) (k : String) : Bool := a.any (fun kv => kv.1 == k)

/-- `args.PeekMulti(k)`: all values registered under `k`, in submission
order. -/
def Args.peekMulti (a : Args) (k : String) : List String :=
  (a.filter (fun kv => kv.1 == k)).map (fun kv => kv.2)

/-- `args.Peek(k)`: the first value registered under `k` (empty when the key
is absent, as fasthttp returns nil bytes). -/
def Args.peek (a : Args) (k : String) : String := (a.peekMulti k).headD ""

/-- One struct field of the scan target: the annotation value under the
chosen tag namespace (`""` when the field carries no such annotation), the
declared kind, the current value, and exportedness (unexported fields fail
`reflect`'s `CanSet`). -/
structure Field where
  tag : String
  kind : Kind
  val : Val
  exported : Bool

/-- Everything before the first comma of a tag. -/
def takeUntilComma : List Char → List Char
  | [] => []
  | c :: cs => if c = ',' then [] else c :: takeUntilComma cs

/-- `strings.Split(tag, ",")[0]` (utils.go:47): the binding key without the
optional modifier. -/
def cleanTag (tag : String) : String := String.mk (takeUntilComma tag.data)

/-- Zero value of a kind, as `reflect.MakeSlice` produces for elements. -/
def defaultVal : Kind → Val
  | .int => .vint 0
  | .uint => .vuint 0
  | .uint8 => .vuint 0
  | .float => .vfloat 0
  | .str => .vstr ""
  | .bool => .vbool false
  | _ => .vnone

/-- The per-element loop of the slice branch of `ScanArgs` (utils.go:77-82):
threads the `scanned` flag (so the final flag is the last element's), aborts
on the first failing element carrying that element's raw value and the
reason, and leaves elements that `setVal` does not scan at their `MakeSlice`
zero value. -/
def coerceListAux (elem : Kind) (scanned : Bool) :
    List String → Except (String × String) (Bool × List Val)
  | [] => .ok (scanned, [])
  | v :: rest =>
    match setVal elem v with
    | .error reason => .error (v, reason)
    | .ok r =>
      match coerceListAux elem r.isSome rest with
      | .error e => .error e
      | .ok p => .ok (p.1, (r.getD (defaultVal elem)) :: p.2)

/-- The decode-failure message of `ScanArgs` (utils.go:80 and 88). -/
def decodeErr (key v reason : String) : String :=
  "failed to decode `" ++ key ++ "`, got: `" ++ v ++ "` (" ++ reason ++ ")"

/-- One iteration of the field loop of `ScanArgs` (utils.go:37-95): returns
the field's new state, the binding key to append to the matched list (if
any), and the error (if any).  `settable` models addressability of the
struct value (true when it was reached through a pointer), so the effective
`CanSet` is `settable && exported`.  Note the byte-slice branch assigns the
raw first value and `continue`s, bypassing the matched-list append. -/
def processField (args : Args) (settable : Bool) (f : Field) :
    Field × Option String × Option String :=
  if settable && f.exported then
    if f.tag = "" ∨ f.tag = "-" then (f, none, none)
    else
      let key := cleanTag f.tag
      if args.has key then
        match f.kind with
        | .slice elem =>
          if elem = .uint8 then
            ({ f with val := .vbytes (args.peek key) }, none, none)
          else
            match coerceListAux elem false (args.peekMulti key) with
            | .error e => (f, none, some (decodeErr key e.1 e.2))
            | .ok p =>
              ({ f with val := .vslice p.2 }, if p.1 then some key else none, none)
        | k =>
          let v := args.peek key
          match setVal k v with
          | .error reason => (f, none, some (decodeErr key v reason))
          | .ok none => (f, none, none)
          | .ok (some w) => ({ f with val := w }, some key, none)
      else (f, none, none)
  else (f, none, none)

/-- The field loop of `ScanArgs` (utils.go:36-97): fields are processed in
declaration order; on the first error the loop returns immediately with a
nil matched-key list, the failing and later fields untouched, and earlier
fields keeping their already-assigned values. -/
def scanFields (args : Args) (settable : Bool) :
    List Field → List Field × List String × Option String
  | [] => ([], [], none)
  | f :: rest =>
    match processField args settable f with
    | (f2, _, some e) => (f2 :: rest, [], some e)
    | (f2, mk, none) =>
      match scanFields args settable rest with
      | (rest2, _, some e) => (f2 :: rest2, [], some e)
      | (rest2, ks, none) =>
        (f2 :: rest2, (match mk with | some k => k :: ks | none => ks), none)

/-- The value handed to `ScanArgs` as seen by `reflect.ValueOf`: a pointer
(possibly nil), a struct, some other concrete value, or the invalid value a
nil interface produces. -/
inductive Target where
  | tptr : Option Target → Target
  | tstruct : List Field → Target
  | tprim : Target
  | tinvalid : Target

/-- The single pointer dereference of utils.go:26-28 plus addressability:
`Elem` of a non-nil pointer is addressable (fields settable), `Elem` of a nil
pointer is the invalid value, anything else is left as is (not addressable,
so `CanSet` fails on every field). -/
def derefOnce : Target → Target × Bool
  | .tptr (some t) => (t, true)
  | .tptr none => (.tinvalid, true)
  | t => (t, false)

/-- The non-struct error of utils.go:31.  (`%T` of a `reflect.Value` always
prints `reflect.Value`, whatever the dynamic type was.) -/
def nonStructErr : String :=
  "failed to decode form values to struct, received non struct type: reflect.Value"

/-- Model of `ScanArgs` (utils.go:24-98): dereference once, demand a struct,
then run the field loop.  Returns the final target (mutation is visible to
the caller only through a pointer), the matched binding keys, and the
error. -/
def ScanArgs (obj : Target) (args : Args) : Target × List String × Option String :=
  match derefOnce obj with
  | (.tstruct fs, addr) =>
    let r := scanFields args addr fs
    ((if addr then .tptr (some (.tstruct r.1)) else .tstruct r.1), r.2.1, r.2.2)
  | _ => (obj, [], some nonStructErr)

/-- The kinds `setVal` can scan: the bindable scalar kinds. -/
def isScalarKind : Kind → Bool
  | .int | .uint | .uint8 | .float | .str | .bool => true
  | _ => false

/-- The value `setVal` stores for a successfully coerced literal (zero when
the kind is unbindable or the literal fails; used only under success
hypotheses). -/
def coerce1 (elem : Kind) (v : String) : Val :=
  match setVal elem v with
  | .ok (some w) => w
  | _ => defaultVal elem

/-- `setVal` on an unbindable kind never touches the field and never errors. -/
lemma setVal_not_scalar {k : Kind} (h : isScalarKind k = false) (v : String) :
    setVal k v = .ok none := by
  cases k <;> simp [isScalarKind] at h <;> rfl

/-- A present key has at least one registered value. -/
lemma peekMulti_ne_nil {a : Args} {k : String} (h : a.has k = true) :
    a.peekMulti k ≠ [] := by
  rw [Args.has, List.any_eq_true] at h
  obtain ⟨kv, hmem, hk⟩ := h
  intro hnil
  rw [Args.peekMulti, List.map_eq_nil_iff, List.filter_eq_nil_iff] at hnil
  exact hnil kv hmem hk

/-- A field with an empty or ignore-sentinel tag, or whose binding key is
absent from the multimap, passes through `processField` untouched, matching
no key and raising no error. -/
lemma processField_skip {args : Args} {s : Bool} {f : Field}
    (h : f.tag = "" ∨ f.tag = "-" ∨ args.has (cleanTag f.tag) = false) :
    processField args s f = (f, none, none) := by
  rcases h with h | h | h <;> rw [processField] <;> split <;> simp [h]

/-- An unsettable field (unexported, or a non-addressable struct) passes
through `processField` untouched. -/
lemma processField_not_settable {args : Args} {s : Bool} {f : Field}
    (h : (s && f.exported) = false) :
    processField args s f = (f, none, none) := by
  rw [processField, h]; rfl

/-- `processField` with all three guards passed, written with the guards
discharged: what remains is the kind dispatch. -/
lemma processField_eq {args : Args} {s : Bool} {f : Field}
    (h1 : (s && f.exported) = true) (h2 : ¬(f.tag = "" ∨ f.tag = "-"))
    (h3 : args.has (cleanTag f.tag) = true) :
    processField args s f =
      (match f.kind with
       | .slice elem =>
         if elem = Kind.uint8 then
           ({ f with val := .vbytes (args.peek (cleanTag f.tag)) }, none, none)
         else
           match coerceListAux elem false (args.peekMulti (cleanTag f.tag)) with
           | .error e => (f, none, some (decodeErr (cleanTag f.tag) e.1 e.2))
           | .ok p =>
             ({ f with val := .vslice p.2 },
               if p.1 then some (cleanTag f.tag) else none, none)
       | k =>
         match setVal k (args.peek (cleanTag f.tag)) with
         | .error reason =>
           (f, none, some (decodeErr (cleanTag f.tag) (args.peek (cleanTag f.tag)) reason))
         | .ok none => (f, none, none)
         | .ok (some w) => ({ f with val := w }, some (cleanTag f.tag), none)) := by
  rw [processField]
  simp [h1, h2, h3]

/-- The matched-key list that `scanFields` returns alongside an error is
always nil (utils.go returns `nil, err`). -/
lemma scanFields_err_keys {args : Args} {s : Bool} :
    ∀ {fs fs' : List Field} {ks : List String} {e : String},
      scanFields args s fs = (fs', ks, some e) → ks = [] := by
  intro fs
  induction fs with
  | nil => intro fs' ks e h; rw [scanFields] at h; simp at h
  | cons f rest ih =>
    intro fs' ks e h
    rw [scanFields] at h
    rcases hp : processField args s f with ⟨f2, mk, me⟩
    rw [hp] at h
    cases me with
    | some e' => simp at h; exact h.2.1
    | none =>
      rcases hr : scanFields args s rest with ⟨rest2, ks2, me2⟩
      rw [hr] at h
      cases me2 with
      | some e' => simp at h; exact h.2.1
      | none => simp at h

/-- `scanFields` over a field whose processing matches no key and raises no
error (skipped fields, and byte-slice assignments): the rest of the scan is
unaffected. -/
lemma scanFields_cons_noKey {args : Args} {s : Bool} {f f2 : Field}
    (rest : List Field) (h : processField args s f = (f2, none, none)) :
    scanFields args s (f :: rest) =
      (f2 :: (scanFields args s rest).1, (scanFields args s rest).2.1,
        (scanFields args s rest).2.2) := by
  rw [scanFields, h]
  rcases hr : scanFields args s rest with ⟨rest2, ks, me⟩
  cases me with
  | none => simp
  | some e => simp [scanFields_err_keys hr]

/-- `scanFields` over a field that is assigned without error. -/
lemma scanFields_cons_ok {args : Args} {s : Bool} {f f2 : Field}
    {mk : Option String} (rest : List Field)
    (h : processField args s f = (f2, mk, none)) :
    scanFields args s (f :: rest) =
      (f2 :: (scanFields args s rest).1,
        (if (scanFields args s rest).2.2 = none then
          (match mk with | some k => k :: (scanFields args s rest).2.1 | none => (scanFields args s rest).2.1)
         else []),
        (scanFields args s rest).2.2) := by
  rw [scanFields, h]
  rcases hr : scanFields args s rest with ⟨rest2, ks, me⟩
  cases me <;> simp

/-- `scanFields` aborts at a field whose processing errors: the failing field
and all later ones are returned unprocessed, with a nil key list. -/
lemma scanFields_cons_err {args : Args} {s : Bool} {f f2 : Field}
    {mk : Option String} {e : String} (rest : List Field)
    (h : processField args s f = (f2, mk, some e)) :
    scanFields args s (f :: rest) = (f2 :: rest, [], some e) := by
  rw [scanFields, h]

/-- Appending behind an error-free prefix: an error in the suffix surfaces
with the prefix's mutations kept and a nil key list. -/
lemma scanFields_append_err {args : Args} {s : Bool} :
    ∀ {fs1 fs1' : List Field} {ks : List String} {fs2 fs2' : List Field} {e : String},
      scanFields args s fs1 = (fs1', ks, none) →
      scanFields args s fs2 = (fs2', [], some e) →
      scanFields args s (fs1 ++ fs2) = (fs1' ++ fs2', [], some e) := by
  intro fs1
  induction fs1 with
  | nil =>
    intro fs1' ks fs2 fs2' e h1 h2
    rw [scanFields] at h1
    simp at h1
    simp only [List.nil_append]
    rw [h2, h1.1]
    simp
  | cons f rest ih =>
    intro fs1' ks fs2 fs2' e h1 h2
    rw [scanFields] at h1
    rcases hp : processField args s f with ⟨f2, mk, me⟩
    rw [hp] at h1
    cases me with
    | some e' => simp at h1
    | none =>
      rcases hr : scanFields args s rest with ⟨rest2, ks2, me2⟩
      rw [hr] at h1
      cases me2 with
      | some e' => simp at h1
      | none =>
        simp at h1
        have hrec := ih hr h2
        rw [show ((f :: rest) ++ fs2) = f :: (rest ++ fs2) from rfl, scanFields, hp, hrec]
        simp [← h1.1]

/-- Every `setVal` failure message names an expected kind. -/
lemma setVal_error_reason {k : Kind} {v r : String} (h : setVal k v = .error r) :
    r ∈ ["expected int", "expected unsigned int", "expected decimal", "expected boolean"] := by
  cases k with
  | int => rcases hp : parseGoInt v with _ | n <;> simp [setVal, hp] at h <;> simp [← h]
  | uint => rcases hp : parseGoUint v with _ | n <;> simp [setVal, hp] at h <;> simp [← h]
  | uint8 => rcases hp : parseGoUint v with _ | n <;> simp [setVal, hp] at h <;> simp [← h]
  | float =>
    rcases hp : parseGoFloat v with _ | g
    · simp [setVal, hp] at h; simp [← h]
    · cases g <;> simp [setVal, hp] at h <;> simp [← h]
  | str => simp [setVal] at h
  | bool => rcases hp : parseGoBool v with _ | b <;> simp [setVal, hp] at h <;> simp [← h]
  | slice e => simp [setVal] at h
  | other => simp [setVal] at h

/-- The element loop when every value coerces: it returns the coerced values
in order, scanned (for a non-empty list). -/
lemma coerceListAux_all_ok {elem : Kind} :
    ∀ {vals : List String}, (∀ v ∈ vals, ∃ w, setVal elem v = .ok (some w)) →
      ∀ b, coerceListAux elem b vals =
        .ok ((if vals = [] then b else true), vals.map (coerce1 elem)) := by
  intro vals
  induction vals with
  | nil => intro _ b; simp [coerceListAux]
  | cons v rest ih =>
    intro h b
    obtain ⟨w, hw⟩ := h v (by simp)
    have hrest := ih (fun x hx => h x (by simp [hx])) true
    simp only [coerceListAux, hw, Option.isSome_some, hrest]
    simp [coerce1, hw, ite_self]

/-- The element loop over an unbindable element kind: every element is left
at its zero value, nothing errors, and the final flag is unscanned. -/
lemma coerceListAux_unscanned {elem : Kind} (hns : isScalarKind elem = false) :
    ∀ (vals : List String) (b : Bool),
      coerceListAux elem b vals =
        .ok ((if vals = [] then b else false), vals.map (fun _ => defaultVal elem)) := by
  intro vals
  induction vals with
  | nil => intro b; simp [coerceListAux]
  | cons v rest ih =>
    intro b
    simp only [coerceListAux, setVal_not_scalar hns v, Option.isSome_none, ih]
    simp [ite_self]

/-- An element-loop failure pins an offending member of the value list and
its `setVal` failure. -/
lemma coerceListAux_error_mem {elem : Kind} :
    ∀ {vals : List String} {b : Bool} {v r : String},
      coerceListAux elem b vals = .error (v, r) →
        v ∈ vals ∧ setVal elem v = .error r := by
  intro vals
  induction vals with
  | nil => intro b v r h; simp [coerceListAux] at h
  | cons x rest ih =>
    intro b v r h
    simp only [coerceListAux] at h
    rcases hs : setVal elem x with rr | o
    · rw [hs] at h
      simp at h
      obtain ⟨h1, h2⟩ := h
      subst h1; subst h2
      exact ⟨by simp, hs⟩
    · rw [hs] at h
      dsimp only at h
      rcases hrec : coerceListAux elem o.isSome rest with e2 | p
      · rcases e2 with ⟨ev, er⟩
        rw [hrec] at h
        simp at h
        obtain ⟨h1, h2⟩ := h
        subst h1; subst h2
        have hm := ih hrec
        exact ⟨List.mem_cons_of_mem x hm.1, hm.2⟩
      · rw [hrec] at h
        simp at h

/-- The scalar path of `processField` on a successful coercion. -/
lemma processField_scalar_ok {args : Args} {s : Bool} {f : Field} {w : Val}
    (h1 : (s && f.exported) = true) (h2 : ¬(f.tag = "" ∨ f.tag = "-"))
    (h3 : args.has (cleanTag f.tag) = true) (hsc : isScalarKind f.kind = true)
    (hset : setVal f.kind (args.peek (cleanTag f.tag)) = .ok (some w)) :
    processField args s f = ({ f with val := w }, some (cleanTag f.tag), none) := by
  rw [processField_eq h1 h2 h3]
  rcases f with ⟨tag, kind, val, exp⟩
  cases kind <;> simp_all [isScalarKind]

/-- The scalar path of `processField` on a failing coercion. -/
lemma processField_scalar_err {args : Args} {s : Bool} {f : Field} {reason : String}
    (h1 : (s && f.exported) = true) (h2 : ¬(f.tag = "" ∨ f.tag = "-"))
    (h3 : args.has (cleanTag f.tag) = true) (hsc : isScalarKind f.kind = true)
    (hset : setVal f.kind (args.peek (cleanTag f.tag)) = .error reason) :
    processField args s f =
      (f, none,
        some (decodeErr (cleanTag f.tag) (args.peek (cleanTag f.tag)) reason)) := by
  rw [processField_eq h1 h2 h3]
  rcases f with ⟨tag, kind, val, exp⟩
  cases kind <;> simp_all [isScalarKind]

/-- The byte-slice path of `processField`: raw first value, no matched key. -/
lemma processField_bytes {args : Args} {s : Bool} {f : Field}
    (h1 : (s && f.exported) = true) (h2 : ¬(f.tag = "" ∨ f.tag = "-"))
    (h3 : args.has (cleanTag f.tag) = true) (hk : f.kind = .slice .uint8) :
    processField args s f =
      ({ f with val := .vbytes (args.peek (cleanTag f.tag)) }, none, none) := by
  rw [processField_eq h1 h2 h3, hk]
  simp

/-- The non-byte slice path of `processField`, as a function of the element
loop's outcome. -/
lemma processField_slice {args : Args} {s : Bool} {f : Field} {elem : Kind}
    (h1 : (s && f.exported) = true) (h2 : ¬(f.tag = "" ∨ f.tag = "-"))
    (h3 : args.has (cleanTag f.tag) = true) (hk : f.kind = .slice elem)
    (h4 : elem ≠ Kind.uint8) :
    processField args s f =
      (match coerceListAux elem false (args.peekMulti (cleanTag f.tag)) with
       | .error e => (f, none, some (decodeErr (cleanTag f.tag) e.1 e.2))
       | .ok p =>
         ({ f with val := .vslice p.2 },
           if p.1 then some (cleanTag f.tag) else none, none)) := by
  rw [processField_eq h1 h2 h3, hk]
  simp [h4]

/-- A field of an unbindable non-slice kind is always skipped. -/
lemma processField_other {args : Args} {s : Bool} {f : Field}
    (hk : f.kind = .other) : processField args s f = (f, none, none) := by
  by_cases h1 : (s && f.exported) = true
  · by_cases h2 : f.tag = "" ∨ f.tag = "-"
    · rcases h2 with h | h
      · exact processField_skip (Or.inl h)
      · exact processField_skip (Or.inr (Or.inl h))
    · by_cases h3 : args.has (cleanTag f.tag) = true
      · rw [processField_eq h1 h2 h3, hk]
        simp [setVal]
      · exact processField_skip (Or.inr (Or.inr (by simpa using h3)))
  · exact processField_not_settable (by simpa using h1)

/-- Claim C10: for every argument value whose target (after one pointer
dereference) is not a struct — including a nil interface or a pointer to a
non-struct — `ScanArgs` returns a nil field list and a descriptive error, and
assigns nothing (the target comes back unchanged). -/
theorem C10_non_struct_target_errors (obj : Target) (args : Args)
    (h : ∀ fs, (derefOnce obj).1 ≠ Target.tstruct fs) :
    ScanArgs obj args = (obj, [], some nonStructErr) := by
  rw [ScanArgs]
  rcases hd : derefOnce obj with ⟨ob, addr⟩
  cases ob with
  | tstruct fs => exact absurd (congrArg Prod.fst hd) (h fs)
  | _ => rfl

/-- Witness for C10: a nil interface and a pointer to a non-struct both make
`ScanArgs` return the non-struct error with a nil key list. -/
theorem C10_witness :
    ScanArgs .tinvalid [] = (.tinvalid, [], some nonStructErr)
    ∧ ScanArgs (.tptr (some .tprim)) [("a", "1")]
        = (.tptr (some .tprim), [], some nonStructErr) :=
  ⟨C10_non_struct_target_errors .tinvalid [] (fun _ h => Target.noConfusion h),
   C10_non_struct_target_errors (.tptr (some .tprim)) [("a", "1")]
     (fun _ h => Target.noConfusion h)⟩

/-- Claim C8: a field with no recognized annotation (empty tag), or the
ignore sentinel `-`, or whose binding key has no entry in the multimap, is
left untouched by the scan, reports no error, and contributes no key to the
returned list; the rest of the scan is unaffected. -/
theorem C8_unbound_fields_untouched :
    (∀ (args : Args) (s : Bool) (f : Field),
      f.tag = "" ∨ f.tag = "-" ∨ args.has (cleanTag f.tag) = false →
      processField args s f = (f, none, none))
    ∧ (∀ (args : Args) (s : Bool) (f : Field) (rest : List Field),
      processField args s f = (f, none, none) →
      scanFields args s (f :: rest) =
        (f :: (scanFields args s rest).1, (scanFields args s rest).2.1,
          (scanFields args s rest).2.2)) :=
  ⟨fun _ _ _ h => processField_skip h,
   fun _ _ _ rest h => scanFields_cons_noKey rest h⟩

/-- Witness for C8: an ignore-sentinel field, an untagged field, and a field
with an absent key are all left at their zero values with no key matched. -/
theorem C8_witness :
    processField [("a", "1")] true ⟨"-", .int, .vnone, true⟩
      = (⟨"-", .int, .vnone, true⟩, none, none)
    ∧ processField [("a", "1")] true ⟨"", .str, .vnone, true⟩
      = (⟨"", .str, .vnone, true⟩, none, none)
    ∧ processField [("a", "1")] true ⟨"b", .int, .vnone, true⟩
      = (⟨"b", .int, .vnone, true⟩, none, none)
    ∧ scanFields [("a", "1")] true
        [⟨"-", .int, .vnone, true⟩, ⟨"a", .int, .vnone, true⟩]
      = ([⟨"-", .int, .vnone, true⟩, ⟨"a", .int, .vint 1, true⟩], ["a"], none) :=
  ⟨C8_unbound_fields_untouched.1 _ _ _ (Or.inr (Or.inl rfl)),
   C8_unbound_fields_untouched.1 _ _ _ (Or.inl rfl),
   C8_unbound_fields_untouched.1 _ _ _ (Or.inr (Or.inr rfl)),
   by
    rw [C8_unbound_fields_untouched.2 _ _ _ _
      (C8_unbound_fields_untouched.1 _ _ _ (Or.inr (Or.inl rfl)))]
    rfl⟩

/-- Claim C6: a field declared `[]byte` (slice of byte-sized scalars) whose
binding key is present receives the raw bytes of the first value under that
key verbatim, with no per-element coercion and no error, and the scan then
proceeds to the next field; the byte branch never contributes a matched
key. -/
theorem C6_byte_slice_raw_assignment :
    (∀ (args : Args) (f : Field),
      f.exported = true → f.tag ≠ "" → f.tag ≠ "-" →
      f.kind = .slice .uint8 → args.has (cleanTag f.tag) = true →
      processField args true f =
        ({ f with val := .vbytes (args.peek (cleanTag f.tag)) }, none, none))
    ∧ (∀ (args : Args) (f : Field) (rest : List Field),
      f.exported = true → f.tag ≠ "" → f.tag ≠ "-" →
      f.kind = .slice .uint8 → args.has (cleanTag f.tag) = true →
      scanFields args true (f :: rest) =
        ({ f with val := .vbytes (args.peek (cleanTag f.tag)) } ::
            (scanFields args true rest).1,
          (scanFields args true rest).2.1, (scanFields args true rest).2.2)) := by
  constructor
  · intro args f he ht1 ht2 hk hhas
    exact processField_bytes (by simp [he]) (by tauto) hhas hk
  · intro args f rest he ht1 ht2 hk hhas
    exact scanFields_cons_noKey rest
      (processField_bytes (by simp [he]) (by tauto) hhas hk)

/-- Witness for C6: a `[]byte` field takes the raw first of two values, and a
following field is still scanned. -/
theorem C6_witness :
    processField [("b", "one"), ("b", "two")] true ⟨"b", .slice .uint8, .vnone, true⟩
      = (⟨"b", .slice .uint8, .vbytes "one", true⟩, none, none)
    ∧ scanFields [("b", "one"), ("b", "two"), ("z", "7")] true
        [⟨"b", .slice .uint8, .vnone, true⟩, ⟨"z", .int, .vnone, true⟩]
      = ([⟨"b", .slice .uint8, .vbytes "one", true⟩, ⟨"z", .int, .vint 7, true⟩],
          ["z"], none) := by
  constructor
  · exact C6_byte_slice_raw_assignment.1 _ _ rfl (by decide) (by decide) rfl rfl
  · rw [C6_byte_slice_raw_assignment.2 [("b", "one"), ("b", "two"), ("z", "7")]
      ⟨"b", .slice .uint8, .vnone, true⟩ [⟨"z", .int, .vnone, true⟩]
      rfl (by decide) (by decide) rfl rfl]
    rfl

/-- Claim C5: a sequence-typed field with a bindable non-byte element kind
takes all values registered under its key in multimap order and becomes a
fresh sequence of exactly that length with each element coerced to the
element kind; three repeated values under one key bound to a slice-of-string
field yield that three-element slice in submission order. -/
theorem C5_sequence_binding :
    (∀ (args : Args) (f : Field) (elem : Kind),
      f.exported = true → f.tag ≠ "" → f.tag ≠ "-" →
      f.kind = .slice elem → isScalarKind elem = true → elem ≠ .uint8 →
      args.has (cleanTag f.tag) = true →
      (∀ v ∈ args.peekMulti (cleanTag f.tag), ∃ w, setVal elem v = .ok (some w)) →
      processField args true f =
        ({ f with
            val := .vslice ((args.peekMulti (cleanTag f.tag)).map (coerce1 elem)) },
          some (cleanTag f.tag), none)
        ∧ ((args.peekMulti (cleanTag f.tag)).map (coerce1 elem)).length
            = (args.peekMulti (cleanTag f.tag)).length)
    ∧ scanFields [("s", "v1"), ("s", "v2"), ("s", "v3")] true
        [⟨"s", .slice .str, .vnone, true⟩]
      = ([⟨"s", .slice .str, .vslice [.vstr "v1", .vstr "v2", .vstr "v3"], true⟩],
          ["s"], none) := by
  constructor
  · intro args f elem he ht1 ht2 hk hsc hne hhas hall
    have hc := coerceListAux_all_ok hall false
    rw [if_neg (peekMulti_ne_nil hhas)] at hc
    refine ⟨?_, by simp⟩
    rw [processField_slice (by simp [he]) (by tauto) hhas hk hne, hc]
    simp
  · rfl

/-- Witness for C5: two integer values under one key become the two-element
integer slice, via the general clause of the claim theorem. -/
theorem C5_witness :
    processField [("n", "4"), ("n", "5")] true ⟨"n", .slice .int, .vnone, true⟩
      = (⟨"n", .slice .int, .vslice [.vint 4, .vint 5], true⟩, some "n", none) :=
  (C5_sequence_binding.1 [("n", "4"), ("n", "5")] ⟨"n", .slice .int, .vnone, true⟩
    .int rfl (by decide) (by decide) rfl rfl (by decide) rfl
    (by
      intro v hv
      have hpm : Args.peekMulti [("n", "4"), ("n", "5")] (cleanTag "n")
          = ["4", "5"] := rfl
      rw [hpm] at hv
      simp at hv
      rcases hv with rfl | rfl
      · exact ⟨.vint 4, rfl⟩
      · exact ⟨.vint 5, rfl⟩)).1

/-- Claim C1: a scalar field takes the first value registered under its
binding key and coerces it by declared kind; valid literals round-trip:
`"123"` into an integer field stores 123, each of strconv's true literals
stores `true` in a boolean field, `"-1.2"` stores the decimal -1.2, and a
string field receives the raw value verbatim. -/
theorem C1_scalar_roundtrip :
    (∀ (args : Args) (f : Field) (w : Val),
      f.exported = true → f.tag ≠ "" → f.tag ≠ "-" →
      isScalarKind f.kind = true →
      args.has (cleanTag f.tag) = true →
      setVal f.kind (args.peek (cleanTag f.tag)) = .ok (some w) →
      processField args true f = ({ f with val := w }, some (cleanTag f.tag), none))
    ∧ setVal .int "123" = .ok (some (.vint 123))
    ∧ (∀ s, parseGoBool s = some true → setVal .bool s = .ok (some (.vbool true)))
    ∧ parseGoBool "true" = some true ∧ parseGoBool "t" = some true
    ∧ parseGoBool "1" = some true
    ∧ setVal .float "-1.2" = .ok (some (.vfloat (mkRat (-6) 5)))
    ∧ (∀ s, setVal .str s = .ok (some (.vstr s))) := by
  refine ⟨?_, rfl, ?_, rfl, rfl, rfl, ?_, fun s => rfl⟩
  · intro args f w he ht1 ht2 hsc hhas hset
    exact processField_scalar_ok (by simp [he]) (by tauto) hhas hsc hset
  · intro s h
    simp [setVal, h]
  · have h : parseGoFloat "-1.2" = some (.finite (mkRat (-6) 5)) := by decide
    simp [setVal, h]

/-- Witness for C1: the general clause at a concrete multimap where the key
carries two values — the first (`"123"`), not the second, is stored. -/
theorem C1_witness :
    processField [("n", "123"), ("n", "999")] true ⟨"n", .int, .vnone, true⟩
      = (⟨"n", .int, .vint 123, true⟩, some "n", none)
    ∧ setVal .bool "t" = .ok (some (.vbool true)) :=
  ⟨C1_scalar_roundtrip.1 [("n", "123"), ("n", "999")] ⟨"n", .int, .vnone, true⟩
      (.vint 123) rfl (by decide) (by decide) rfl rfl rfl,
   C1_scalar_roundtrip.2.2.1 "t" rfl⟩

/-- Every error raised by `processField` is the decode message built from
the field's cleaned binding key, an offending raw value registered under
that key, and a `setVal` expected-kind reason. -/
lemma processField_err_form {args : Args} {s : Bool} {f : Field} {e : String}
    (h : (processField args s f).2.2 = some e) :
    ∃ v reason, e = decodeErr (cleanTag f.tag) v reason ∧
      reason ∈ ["expected int", "expected unsigned int", "expected decimal",
        "expected boolean"] ∧
      (v = args.peek (cleanTag f.tag) ∨ v ∈ args.peekMulti (cleanTag f.tag)) := by
  rcases f with ⟨tag, kind, val, exp⟩
  by_cases h1 : (s && exp) = true
  · by_cases h2 : tag = "" ∨ tag = "-"
    · rcases h2 with h2 | h2
      · rw [processField_skip (Or.inl h2)] at h; simp at h
      · rw [processField_skip (Or.inr (Or.inl h2))] at h; simp at h
    · by_cases h3 : args.has (cleanTag tag) = true
      · rw [processField_eq h1 h2 h3] at h
        cases kind
        · rcases hs : setVal Kind.int (args.peek (cleanTag tag)) with rr | o
          · simp [hs] at h
            exact ⟨args.peek (cleanTag tag), rr, h.symm, setVal_error_reason hs,
              Or.inl rfl⟩
          · rcases o with _ | w <;> simp [hs] at h
        · rcases hs : setVal Kind.uint (args.peek (cleanTag tag)) with rr | o
          · simp [hs] at h
            exact ⟨args.peek (cleanTag tag), rr, h.symm, setVal_error_reason hs,
              Or.inl rfl⟩
          · rcases o with _ | w <;> simp [hs] at h
        · rcases hs : setVal Kind.uint8 (args.peek (cleanTag tag)) with rr | o
          · simp [hs] at h
            exact ⟨args.peek (cleanTag tag), rr, h.symm, setVal_error_reason hs,
              Or.inl rfl⟩
          · rcases o with _ | w <;> simp [hs] at h
        · rcases hs : setVal Kind.float (args.peek (cleanTag tag)) with rr | o
          · simp [hs] at h
            exact ⟨args.peek (cleanTag tag), rr, h.symm, setVal_error_reason hs,
              Or.inl rfl⟩
          · rcases o with _ | w <;> simp [hs] at h
        · rcases hs : setVal Kind.str (args.peek (cleanTag tag)) with rr | o
          · simp [hs] at h
            exact ⟨args.peek (cleanTag tag), rr, h.symm, setVal_error_reason hs,
              Or.inl rfl⟩
          · rcases o with _ | w <;> simp [hs] at h
        · rcases hs : setVal Kind.bool (args.peek (cleanTag tag)) with rr | o
          · simp [hs] at h
            exact ⟨args.peek (cleanTag tag), rr, h.symm, setVal_error_reason hs,
              Or.inl rfl⟩
          · rcases o with _ | w <;> simp [hs] at h
        · rename_i elem
          by_cases h4 : elem = Kind.uint8
          · simp [h4] at h
          · rcases hc : coerceListAux elem false (args.peekMulti (cleanTag tag))
                with p | p
            · rcases p with ⟨ev, er⟩
              simp [h4, hc] at h
              obtain ⟨hm, herr⟩ := coerceListAux_error_mem hc
              exact ⟨ev, er, h.symm, setVal_error_reason herr, Or.inr hm⟩
            · simp [h4, hc] at h
        · rcases hs : setVal Kind.other (args.peek (cleanTag tag)) with rr | o
          · simp [hs] at h
            exact ⟨args.peek (cleanTag tag), rr, h.symm, setVal_error_reason hs,
              Or.inl rfl⟩
          · rcases o with _ | w <;> simp [hs] at h
      · rw [processField_skip (Or.inr (Or.inr (by simpa using h3)))] at h
        simp at h
  · rw [processField_not_settable (by simpa using h1)] at h
    simp at h

/-- On success the matched-key list is the in-order `filterMap` of each
field's matched key. -/
lemma scanFields_ok_keys {args : Args} {s : Bool} :
    ∀ {fs fs' : List Field} {ks : List String},
      scanFields args s fs = (fs', ks, none) →
      ks = fs.filterMap (fun f => (processField args s f).2.1) := by
  intro fs
  induction fs with
  | nil =>
    intro fs' ks h
    rw [scanFields] at h
    simp at h
    simp [← h.2]
  | cons f rest ih =>
    intro fs' ks h
    rw [scanFields] at h
    rcases hp : processField args s f with ⟨f2, mk, me⟩
    rw [hp] at h
    cases me with
    | some e => simp at h
    | none =>
      rcases hr : scanFields args s rest with ⟨rest2, ks2, me2⟩
      rw [hr] at h
      cases me2 with
      | some e => simp at h
      | none =>
        cases mk with
        | none =>
          simp at h
          simp [List.filterMap_cons, hp]
          rw [← h.2]
          exact ih hr
        | some k =>
          simp at h
          simp [List.filterMap_cons, hp]
          rw [← h.2, ih hr]

/-- The byte-slice branch of `ScanArgs` never contributes a matched key
(its `continue` bypasses the append). -/
lemma processField_bytes_nokey {args : Args} {s : Bool} {f : Field}
    (hk : f.kind = .slice .uint8) : (processField args s f).2.1 = none := by
  by_cases h1 : (s && f.exported) = true
  · by_cases h2 : f.tag = "" ∨ f.tag = "-"
    · rcases h2 with h2 | h2
      · rw [processField_skip (Or.inl h2)]
      · rw [processField_skip (Or.inr (Or.inl h2))]
    · by_cases h3 : args.has (cleanTag f.tag) = true
      · rw [processField_bytes h1 h2 h3 hk]
      · rw [processField_skip (Or.inr (Or.inr (by simpa using h3)))]
  · rw [processField_not_settable (by simpa using h1)]

/-- Claim C2: on the first coercion failure (of a scalar field or any element
of a sequence field) the scan returns immediately with an error of the exact
form ``failed to decode `key`, got: `value` (reason)`` where the reason names
the expected kind; fields processed before the failing one keep their
assigned values (no rollback) and fields after it are never attempted. -/
theorem C2_abort_on_first_failure :
    (∀ (args : Args) (fs1 fs1' : List Field) (ks : List String) (f : Field)
        (fs2 : List Field) (e : String),
      scanFields args true fs1 = (fs1', ks, none) →
      processField args true f = (f, none, some e) →
      scanFields args true (fs1 ++ f :: fs2) = (fs1' ++ f :: fs2, [], some e))
    ∧ (∀ (args : Args) (s : Bool) (f : Field) (e : String),
      (processField args s f).2.2 = some e →
      ∃ v reason, e = decodeErr (cleanTag f.tag) v reason ∧
        reason ∈ ["expected int", "expected unsigned int", "expected decimal",
          "expected boolean"] ∧
        (v = args.peek (cleanTag f.tag) ∨ v ∈ args.peekMulti (cleanTag f.tag)))
    ∧ decodeErr "n" "abc" "expected int"
        = "failed to decode `n`, got: `abc` (expected int)"
    ∧ scanFields [("a", "9"), ("n", "abc"), ("z", "1")] true
        [⟨"a", .int, .vnone, true⟩, ⟨"n", .int, .vnone, true⟩,
          ⟨"z", .int, .vnone, true⟩]
      = ([⟨"a", .int, .vint 9, true⟩, ⟨"n", .int, .vnone, true⟩,
          ⟨"z", .int, .vnone, true⟩],
          [], some "failed to decode `n`, got: `abc` (expected int)") := by
  refine ⟨?_, ?_, rfl, rfl⟩
  · intro args fs1 fs1' ks f fs2 e h1 h2
    exact scanFields_append_err h1 (scanFields_cons_err fs2 h2)
  · intro args s f e h
    exact processField_err_form h

/-- Witness for C2: a failing integer field in the middle of three fields —
the earlier field keeps its assigned value, the later field stays at zero,
and the returned error carries the exact message. -/
theorem C2_witness :
    scanFields [("a", "9"), ("n", "abc"), ("z", "1")] true
        ([⟨"a", .int, .vnone, true⟩] ++
          ⟨"n", .int, .vnone, true⟩ :: [⟨"z", .int, .vnone, true⟩])
      = ([⟨"a", .int, .vint 9, true⟩] ++
          ⟨"n", .int, .vnone, true⟩ :: [⟨"z", .int, .vnone, true⟩],
          [], some "failed to decode `n`, got: `abc` (expected int)") :=
  C2_abort_on_first_failure.1 [("a", "9"), ("n", "abc"), ("z", "1")]
    [⟨"a", .int, .vnone, true⟩] [⟨"a", .int, .vint 9, true⟩] ["a"]
    ⟨"n", .int, .vnone, true⟩ [⟨"z", .int, .vnone, true⟩]
    "failed to decode `n`, got: `abc` (expected int)" rfl rfl

/-- Claim C9 counterexample: a slice field with an unbindable element kind
and a present key is *not* left unchanged — it is overwritten with a freshly
made slice of zero values, although no error is raised and no key returned. -/
theorem C9_counterexample :
    ScanArgs (.tptr (some (.tstruct [⟨"x", .slice .other, .vnone, true⟩])))
        [("x", "v")]
      = (.tptr (some (.tstruct [⟨"x", .slice .other, .vslice [.vnone], true⟩])),
          [], none)
    ∧ Val.vslice [Val.vnone] ≠ Val.vnone :=
  ⟨rfl, fun h => Val.noConfusion h⟩

/-- Claim C9 (amended): an annotated field of an unbindable non-slice kind is
silently skipped (no error, value untouched, no key); a slice field with an
unbindable element kind also raises no error and contributes no key, but its
value is overwritten with a freshly made slice holding one zero element per
registered value. -/
theorem C9_unbindable_kinds_amended :
    (∀ (args : Args) (s : Bool) (f : Field), f.kind = .other →
      processField args s f = (f, none, none))
    ∧ (∀ (args : Args) (f : Field) (elem : Kind),
      f.exported = true → f.tag ≠ "" → f.tag ≠ "-" →
      f.kind = .slice elem → isScalarKind elem = false →
      args.has (cleanTag f.tag) = true →
      processField args true f =
        ({ f with
            val := .vslice ((args.peekMulti (cleanTag f.tag)).map
              (fun _ => defaultVal elem)) },
          none, none)) := by
  constructor
  · intro args s f hk
    exact processField_other hk
  · intro args f elem he ht1 ht2 hk hns hhas
    have helem8 : elem ≠ Kind.uint8 := by
      rintro rfl
      simp [isScalarKind] at hns
    have hc := coerceListAux_unscanned hns (args.peekMulti (cleanTag f.tag)) false
    rw [if_neg (peekMulti_ne_nil hhas)] at hc
    rw [processField_slice (by simp [he]) (by tauto) hhas hk helem8, hc]
    simp

/-- Witness for C9 (amended): an unbindable scalar field is untouched, and a
slice-of-slice field with two values becomes a two-element zero slice. -/
theorem C9_witness :
    processField [("x", "v")] true ⟨"x", .other, .vnone, true⟩
      = (⟨"x", .other, .vnone, true⟩, none, none)
    ∧ processField [("x", "v"), ("x", "w")] true
        ⟨"x", .slice (.slice .int), .vnone, true⟩
      = (⟨"x", .slice (.slice .int), .vslice [.vnone, .vnone], true⟩, none, none) :=
  ⟨C9_unbindable_kinds_amended.1 [("x", "v")] true ⟨"x", .other, .vnone, true⟩ rfl,
   C9_unbindable_kinds_amended.2 [("x", "v"), ("x", "w")]
     ⟨"x", .slice (.slice .int), .vnone, true⟩ (.slice .int)
     rfl (by decide) (by decide) rfl rfl rfl⟩

/-- Claim C7 counterexample: a matched and assigned `[]byte` field does not
appear in the returned key list — the list is empty although the field was
assigned. -/
theorem C7_counterexample :
    ScanArgs (.tptr (some (.tstruct [⟨"b", .slice .uint8, .vnone, true⟩])))
        [("b", "x")]
      = (.tptr (some (.tstruct [⟨"b", .slice .uint8, .vbytes "x", true⟩])),
          [], none)
    ∧ Val.vbytes "x" ≠ Val.vnone :=
  ⟨rfl, fun h => Val.noConfusion h⟩

/-- Claim C7 (amended): on success the returned list is, in field-visit
order, exactly the keys of the fields whose processing matched a key — that
covers every assigned scalar field and every assigned non-byte sequence
field, but byte-slice fields are assigned without their key being returned
(their branch bypasses the append). -/
theorem C7_matched_keys_amended :
    (∀ (args : Args) (fs fs' : List Field) (ks : List String),
      scanFields args true fs = (fs', ks, none) →
      ks = fs.filterMap (fun f => (processField args true f).2.1))
    ∧ (∀ (args : Args) (f : Field) (w : Val),
      f.exported = true → f.tag ≠ "" → f.tag ≠ "-" →
      isScalarKind f.kind = true → args.has (cleanTag f.tag) = true →
      setVal f.kind (args.peek (cleanTag f.tag)) = .ok (some w) →
      (processField args true f).2.1 = some (cleanTag f.tag))
    ∧ (∀ (args : Args) (f : Field) (elem : Kind),
      f.exported = true → f.tag ≠ "" → f.tag ≠ "-" →
      f.kind = .slice elem → isScalarKind elem = true → elem ≠ .uint8 →
      args.has (cleanTag f.tag) = true →
      (∀ v ∈ args.peekMulti (cleanTag f.tag), ∃ w, setVal elem v = .ok (some w)) →
      (processField args true f).2.1 = some (cleanTag f.tag))
    ∧ (∀ (args : Args) (s : Bool) (f : Field),
      f.kind = .slice .uint8 → (processField args s f).2.1 = none) := by
  refine ⟨fun _ _ _ _ h => scanFields_ok_keys h, ?_, ?_,
    fun _ _ _ hk => processField_bytes_nokey hk⟩
  · intro args f w he ht1 ht2 hsc hhas hset
    rw [processField_scalar_ok (by simp [he]) (by tauto) hhas hsc hset]
  · intro args f elem he ht1 ht2 hk hsc hne hhas hall
    have hc := coerceListAux_all_ok hall false
    rw [if_neg (peekMulti_ne_nil hhas)] at hc
    rw [processField_slice (by simp [he]) (by tauto) hhas hk hne, hc]
    simp

/-- Witness for C7 (amended): over one assigned int field and one assigned
byte field, the returned list is just the int field's key, matching the
filterMap characterization; the byte field's key is dropped. -/
theorem C7_witness :
    (["a"] : List String)
      = [⟨"a", Kind.int, Val.vnone, true⟩,
          ⟨"b", .slice .uint8, .vnone, true⟩].filterMap
          (fun f => (processField [("a", "1"), ("b", "x")] true f).2.1)
    ∧ (processField [("b", "x")] true ⟨"b", .slice .uint8, .vnone, true⟩).2.1
        = none :=
  ⟨C7_matched_keys_amended.1 [("a", "1"), ("b", "x")]
      [⟨"a", Kind.int, Val.vnone, true⟩, ⟨"b", .slice .uint8, .vnone, true⟩]
      [⟨"a", Kind.int, Val.vint 1, true⟩, ⟨"b", .slice .uint8, .vbytes "x", true⟩]
      ["a"] rfl,
   C7_matched_keys_amended.2.2.2 [("b", "x")] true
     ⟨"b", .slice .uint8, .vnone, true⟩ rfl⟩

/-- The head of a lowercased non-empty character list. -/
lemma lowerAscii_first {c : Char} {cs t : List Char}
    (h : lowerAscii (c :: cs) = t) : t.head? = some c.toLower := by
  rw [← h]; rfl

/-- `parseSpecial` only ever produces NaN or an infinity. -/
lemma parseSpecial_shape {s : String} {g : GoFloat} (h : parseSpecial s = some g) :
    g = .nan ∨ ∃ b, g = .inf b := by
  rw [parseSpecial] at h
  split at h
  · split at h
    · injection h with h; exact Or.inr ⟨_, h.symm⟩
    · exact absurd h (by simp)
  · split at h
    · injection h with h; exact Or.inr ⟨_, h.symm⟩
    · exact absurd h (by simp)
  · split at h
    · injection h with h; exact Or.inr ⟨_, h.symm⟩
    · split at h
      · injection h with h; exact Or.inl h.symm
      · exact absurd h (by simp)

/-- Claim C3: float coercion fails with `expected decimal` exactly when the
string is unparsable or parses to NaN or an infinity; every casing of `nan`
(unsigned) and of `inf`/`infinity` (optionally signed) hits the special-value
parser and hence fails; the literals `0`, `0.0` and `-0` succeed and store
numeric zero. -/
theorem C3_float_coercion :
    (∀ s : String,
      setVal .float s = .error "expected decimal" ↔
        (parseGoFloat s = none ∨ parseGoFloat s = some .nan ∨
          ∃ b, parseGoFloat s = some (.inf b)))
    ∧ (∀ (s : String) (g : GoFloat), parseSpecial s = some g →
        setVal .float s = .error "expected decimal")
    ∧ (∀ s : String,
        lowerAscii s.data = "nan".data ∨ lowerAscii s.data = "inf".data ∨
          lowerAscii s.data = "infinity".data →
        parseSpecial s ≠ none)
    ∧ (∀ (c : Char) (rest : List Char),
        c = '+' ∨ c = '-' →
        lowerAscii rest = "inf".data ∨ lowerAscii rest = "infinity".data →
        parseSpecial (String.mk (c :: rest)) ≠ none)
    ∧ setVal .float "0" = .ok (some (.vfloat 0))
    ∧ setVal .float "0.0" = .ok (some (.vfloat 0))
    ∧ setVal .float "-0" = .ok (some (.vfloat 0)) := by
  refine ⟨?_, ?_, ?_, ?_, ?_, ?_, ?_⟩
  · intro s
    constructor
    · intro h
      rcases hp : parseGoFloat s with _ | g
      · exact Or.inl rfl
      · cases g with
        | finite q => simp [setVal, hp] at h
        | inf b => exact Or.inr (Or.inr ⟨b, rfl⟩)
        | nan => exact Or.inr (Or.inl rfl)
    · intro h
      rcases h with hp | hp | ⟨b, hp⟩ <;> simp [setVal, hp]
  · intro s g hg
    have hp : parseGoFloat s = some g := by simp [parseGoFloat, hg]
    rcases parseSpecial_shape hg with rfl | ⟨b, rfl⟩ <;> simp [setVal, hp]
  · intro s hyp hnone
    rw [parseSpecial] at hnone
    split at hnone
    · rename_i cs heq
      rw [heq] at hyp
      rcases hyp with hyp | hyp | hyp <;>
        exact absurd (lowerAscii_first hyp) (by decide)
    · rename_i cs heq
      rw [heq] at hyp
      rcases hyp with hyp | hyp | hyp <;>
        exact absurd (lowerAscii_first hyp) (by decide)
    · split at hnone
      · exact absurd hnone (by simp)
      · split at hnone
        · exact absurd hnone (by simp)
        · rename_i h5 h6
          rcases hyp with hyp | hyp | hyp
          · exact h6 hyp
          · exact h5 (Or.inl hyp)
          · exact h5 (Or.inr hyp)
  · intro c rest hc hyp hnone
    rcases hc with rfl | rfl <;> rcases hyp with hyp | hyp <;>
      simp [parseSpecial, hyp] at hnone
  · have h0 : parseGoFloat "0" = some (.finite 0) := by decide
    simp [setVal, h0]
  · have h0 : parseGoFloat "0.0" = some (.finite 0) := by decide
    simp [setVal, h0]
  · have h0 : parseGoFloat "-0" = some (.finite 0) := by decide
    simp [setVal, h0]

/-- Witness for C3: concrete casings of NaN, Inf, Infinity, +INF and -INF
fail float coercion; an unparsable string fails; the special-value matcher
fires on further concrete casings. -/
theorem C3_witness :
    setVal .float "NaN" = .error "expected decimal"
    ∧ setVal .float "+INF" = .error "expected decimal"
    ∧ setVal .float "-iNf" = .error "expected decimal"
    ∧ setVal .float "InFiNiTy" = .error "expected decimal"
    ∧ setVal .float "abc" = .error "expected decimal"
    ∧ parseSpecial "NAN" ≠ none
    ∧ parseSpecial (String.mk ('-' :: "INF".data)) ≠ none :=
  ⟨C3_float_coercion.2.1 "NaN" .nan (by decide),
   C3_float_coercion.2.1 "+INF" (.inf false) (by decide),
   C3_float_coercion.2.1 "-iNf" (.inf true) (by decide),
   C3_float_coercion.2.1 "InFiNiTy" (.inf false) (by decide),
   (C3_float_coercion.1 "abc").mpr (Or.inl (by decide)),
   C3_float_coercion.2.2.1 "NAN" (Or.inl (by decide)),
   C3_float_coercion.2.2.2.1 '-' "INF".data (Or.inr rfl) (Or.inl (by decide))⟩

/-- Modelled from the spec: the Canonical Tree of the nested-key builder
(`UnmarshalArgs`, whose implementation is not among the analysed sources) — a
discriminated value that is an object (ordered string-keyed map), an array,
or a scalar (number, string, boolean, null). -/
inductive Tree where
  | obj : List (String × Tree) → Tree
  | arr : List Tree → Tree
  | num : Rat → Tree
  | str : String → Tree
  | boolv : Bool → Tree
  | nullv : Tree

/-- Modelled from the spec: decompose a bracket-notation key on bracket
delimiters into its ordered path segments (`bar[one][two]` becomes
`bar`, `one`, `two`; an empty bracket pair yields an empty segment). -/
def splitKeyAux : List Char → List Char → List String
  | cur, [] => [String.mk cur]
  | cur, c :: rest =>
    if c = '[' then String.mk cur :: splitKeyAux [] rest
    else if c = ']' then splitKeyAux cur rest
    else splitKeyAux (cur ++ [c]) rest

/-- Modelled from the spec: segment decomposition of a whole key. -/
def splitKey (s : String) : List String := splitKeyAux [] s.data

/-- Modelled from the spec: interpret a raw value by first attempting a
JSON-like scalar literal (number, boolean, null); otherwise keep it as a
literal string. -/
def parseScalarLit (v : String) : Tree :=
  if v = "null" then .nullv
  else if v = "true" then .boolv true
  else if v = "false" then .boolv false
  else
    match parseGoFloat v with
    | some (.finite q) => .num q
    | _ => .str v

/-- Modelled from the spec: build the nested single-path tree for one
key/value pair — one segment gives `{segment: scalar}`, more segments wrap
the recursive result, and an empty second segment (the `[]` array marker)
unwraps the recursive single-entry object into a one-element array. -/
def buildNested : List String → String → Tree
  | [], v => parseScalarLit v
  | [seg], v => .obj [(seg, parseScalarLit v)]
  | seg :: next :: rest, v =>
    let sub := buildNested (next :: rest) v
    if next = "" then
      match sub with
      | .obj [(_, x)] => .obj [(seg, .arr [x])]
      | t => .obj [(seg, t)]
    else .obj [(seg, sub)]

mutual
/-- Modelled from the spec: merge two canonical trees — objects merge
recursively by key, arrays concatenate, any other pairing lets the later
value replace the earlier. -/
def mergeTree : Tree → Tree → Tree
  | .obj a, .obj b => .obj (mergeObjList a b)
  | .arr a, .arr b => .arr (a ++ b)
  | _, u => u
termination_by _t u => (sizeOf u, 0, 0)

/-- Modelled from the spec: fold the later object's entries into the earlier
object's entry list, key by key. -/
def mergeObjList (a : List (String × Tree)) :
    List (String × Tree) → List (String × Tree)
  | [] => a
  | (k, v) :: rest => mergeObjList (mergeKey a k v) rest
termination_by l => (sizeOf l, 2, 0)

/-- Modelled from the spec: merge one entry into an entry list — a key
present on both sides merges the two values recursively, a fresh key is
appended. -/
def mergeKey : List (String × Tree) → String → Tree → List (String × Tree)
  | [], k, v => [(k, v)]
  | (k2, v2) :: rest, k, v =>
    if k2 = k then (k2, mergeTree v2 v) :: rest
    else (k2, v2) :: mergeKey rest k v
termination_by a _k v => (sizeOf v, 1, sizeOf a)
end

/-- Modelled from the spec: fold the remaining (key, value) pairs' nodes into
the accumulator, in multimap iteration order. -/
def buildTreeAux (acc : Tree) : Args → Tree
  | [] => acc
  | (k, v) :: rest => buildTreeAux (mergeTree acc (buildNested (splitKey k) v)) rest

/-- Modelled from the spec: the nested-key builder's tree construction —
build a node for every (key, value) pair and merge all nodes pairwise into
one accumulator in multimap iteration order. -/
def buildTree : Args → Tree
  | [] => .obj []
  | (k, v) :: rest => buildTreeAux (buildNested (splitKey k) v) rest

/-- Claim C4: with `bar[one][two]=2` and `bar[one][red]=112` in one multimap,
the nested-key builder merges the two per-key nodes into the single tree
`{bar: {one: {two: 2, red: 112}}}`; object-object merges recurse key by key,
a shared key merges its two values recursively, and distinct keys both
survive. -/
theorem C4_nested_merge :
    buildTree [("bar[one][two]", "2"), ("bar[one][red]", "112")]
      = .obj [("bar", .obj [("one", .obj [("two", .num 2), ("red", .num 112)])])]
    ∧ (∀ a b, mergeTree (.obj a) (.obj b) = .obj (mergeObjList a b))
    ∧ (∀ k v1 v2 rest, mergeKey ((k, v1) :: rest) k v2
        = (k, mergeTree v1 v2) :: rest)
    ∧ (∀ k1 v1 k2 v2, k1 ≠ k2 →
        mergeTree (.obj [(k1, v1)]) (.obj [(k2, v2)])
          = .obj [(k1, v1), (k2, v2)]) := by
  refine ⟨?_, ?_, ?_, ?_⟩
  · have hsplit1 : splitKey "bar[one][two]" = ["bar", "one", "two"] := rfl
    have hsplit2 : splitKey "bar[one][red]" = ["bar", "one", "red"] := rfl
    have hnum2 : parseGoFloat "2" = some (.finite 2) := by decide
    have hnum112 : parseGoFloat "112" = some (.finite 112) := by decide
    have hp2 : parseScalarLit "2" = .num 2 := by simp [parseScalarLit, hnum2]
    have hp112 : parseScalarLit "112" = .num 112 := by
      simp [parseScalarLit, hnum112]
    have hb1 : buildNested ["bar", "one", "two"] "2"
        = .obj [("bar", .obj [("one", .obj [("two", Tree.num 2)])])] := by
      simp [buildNested, hp2]
    have hb2 : buildNested ["bar", "one", "red"] "112"
        = .obj [("bar", .obj [("one", .obj [("red", Tree.num 112)])])] := by
      simp [buildNested, hp112]
    have hmerge :
        mergeTree (.obj [("bar", .obj [("one", .obj [("two", Tree.num 2)])])])
            (.obj [("bar", .obj [("one", .obj [("red", Tree.num 112)])])])
          = .obj [("bar", .obj [("one",
              .obj [("two", Tree.num 2), ("red", Tree.num 112)])])] := by
      simp [mergeTree, mergeObjList, mergeKey]
    rw [buildTree, hsplit1, hb1, buildTreeAux, hsplit2, hb2, buildTreeAux, hmerge]
  · intro a b
    simp [mergeTree]
  · intro k v1 v2 rest
    simp [mergeKey]
  · intro k1 v1 k2 v2 hne
    simp [mergeTree, mergeObjList, mergeKey, hne]

/-- Witness for C4: distinct keys under a merge both survive, at concrete
keys. -/
theorem C4_witness :
    mergeTree (.obj [("x", Tree.num 1)]) (.obj [("y", Tree.num 2)])
      = Tree.obj [("x", Tree.num 1), ("y", Tree.num 2)]
    ∧ mergeKey [("k", Tree.num 1)] "k" (Tree.num 2)
      = [("k", mergeTree (Tree.num 1) (Tree.num 2))] :=
  ⟨C4_nested_merge.2.2.2 "x" (Tree.num 1) "y" (Tree.num 2) (by decide),
   C4_nested_merge.2.2.1 "k" (Tree.num 1) (Tree.num 2) []⟩

end Fastglue
